import Mathlib

/-!
# Verification of the `package_analyzer` dependency reporter

Shallow embedding of `package_analyzer.py`: the specifier normalizer
(`get_dep_name`), the three-strategy manifest extractor
(`extract_direct_dependencies`), the filter step, and CLI argument
validation (`validate_args`).  Strings are modelled as Lean `String`s
with the character-level work done on `List Char`; Python's `str.strip`
is modelled over the ASCII whitespace characters.
-/

set_option autoImplicit false

/-- ASCII whitespace as removed by Python `str.strip()` (the model is
restricted to ASCII; Python additionally strips some Unicode spaces). -/
def pySpace (c : Char) : Bool :=
  c == ' ' || c == '\t' || c == '\n' || c == '\r' || c == '\x0b' || c == '\x0c'

/-- The version-operator characters of the regex `[~=><=!~]` in
`get_dep_name` (the duplicated `~` and `=` in the class are redundant). -/
def opChar (c : Char) : Bool :=
  c == '~' || c == '=' || c == '>' || c == '<' || c == '!'

/-- Remove trailing `pySpace` characters (right half of `str.strip()`). -/
def rstripChars : List Char → List Char
  | [] => []
  | c :: cs =>
    match rstripChars cs with
    | [] => if pySpace c then [] else [c]
    | r => c :: r

/-- Python `str.strip()`: drop leading and trailing whitespace. -/
def pystripChars (l : List Char) : List Char :=
  rstripChars (l.dropWhile pySpace)

/-- First field of `s.split(sep)` / `re.split(cls, s)`: the longest
prefix containing no character satisfying `p`. -/
def splitHead (p : Char → Bool) (l : List Char) : List Char :=
  l.takeWhile (fun c => !(p c))

/-- `get_dep_name` from `package_analyzer.py`, on character lists:
`req.split("[")[0].split(";")[0].strip()` followed by
`re.split(r"[~=><=!~]", name)[0].strip()`. -/
def getDepNameChars (l : List Char) : List Char :=
  pystripChars (splitHead opChar (pystripChars
    (splitHead (fun c => c == ';') (splitHead (fun c => c == '[') l))))

/-- `get_dep_name` lifted to `String`. -/
def get_dep_name (s : String) : String :=
  String.mk (getDepNameChars s.data)

/-- The normalizer as the spec words it: truncate at the first `[` and
the first `;`, then truncate at the first version-operator character,
then trim surrounding whitespace. -/
def specNormalizeChars (l : List Char) : List Char :=
  pystripChars (splitHead opChar (splitHead (fun c => c == '[' || c == ';') l))

/-- Spec-side normalizer lifted to `String`. -/
def specNormalize (s : String) : String :=
  String.mk (specNormalizeChars s.data)

-- ### Helper lemmas about `takeWhile`, `dropWhile`, `rstripChars`

theorem takeWhile_takeWhile_eq (p q : Char → Bool) (l : List Char) :
    (l.takeWhile p).takeWhile q = l.takeWhile (fun c => p c && q c) := by
  induction l with
  | nil => rfl
  | cons c cs ih =>
    by_cases hp : p c = true
    · by_cases hq : q c = true
      · simp [List.takeWhile_cons, hp, hq, ih]
      · simp [List.takeWhile_cons, hp, hq]
    · simp [List.takeWhile_cons, hp]

theorem pySpace_not_opChar {c : Char} (h : pySpace c = true) : opChar c = false := by
  simp only [pySpace, Bool.or_eq_true, beq_iff_eq] at h
  rcases h with ((((h | h) | h) | h) | h) | h <;> subst h <;> decide

/-- `takeWhile` of kept-by-`w` characters commutes with `dropWhile w`,
when every `w` character is kept by the `takeWhile` predicate. -/
theorem takeWhile_dropWhile_comm (q w : Char → Bool)
    (hw : ∀ c, w c = true → q c = true) (l : List Char) :
    (l.dropWhile w).takeWhile q = ((l.takeWhile q).dropWhile w) := by
  induction l with
  | nil => rfl
  | cons c cs ih =>
    by_cases hwc : w c = true
    · have hqc : q c = true := hw c hwc
      simp [List.dropWhile_cons, List.takeWhile_cons, hwc, hqc, ih]
    · by_cases hqc : q c = true
      · simp [List.dropWhile_cons, List.takeWhile_cons, hwc, hqc]
      · simp [List.dropWhile_cons, List.takeWhile_cons, hwc, hqc]

theorem rstrip_cons_eq (c : Char) (x : List Char) :
    rstripChars (c :: x) =
      match rstripChars x with
      | [] => if pySpace c then [] else [c]
      | r => c :: r := rfl

theorem rstrip_cons_congr (c : Char) {x y : List Char}
    (h : rstripChars x = rstripChars y) :
    rstripChars (c :: x) = rstripChars (c :: y) := by
  rw [rstrip_cons_eq, rstrip_cons_eq, h]

theorem rstrip_takeWhile_rstrip (q : Char → Bool)
    (hw : ∀ c, pySpace c = true → q c = true) (u : List Char) :
    rstripChars ((rstripChars u).takeWhile q) = rstripChars (u.takeWhile q) := by
  induction u with
  | nil => rfl
  | cons c cs ih =>
    cases hr : rstripChars cs with
    | nil =>
      have hnil : rstripChars (cs.takeWhile q) = [] := by
        rw [hr] at ih; simpa using ih.symm
      have hcc : rstripChars (c :: cs) = if pySpace c = true then [] else [c] := by
        rw [rstrip_cons_eq, hr]
      by_cases hs : pySpace c = true
      · have hq : q c = true := hw c hs
        have htw : (c :: cs).takeWhile q = c :: cs.takeWhile q := by
          simp [List.takeWhile_cons, hq]
        rw [hcc, if_pos hs, htw, rstrip_cons_eq, hnil, if_pos hs]
        rfl
      · rw [hcc, if_neg hs]
        by_cases hq : q c = true
        · have htw : (c :: cs).takeWhile q = c :: cs.takeWhile q := by
            simp [List.takeWhile_cons, hq]
          have htw1 : List.takeWhile q [c] = [c] := by
            simp [List.takeWhile_cons, hq]
          rw [htw, htw1, rstrip_cons_eq, rstrip_cons_eq, hnil]
          rfl
        · have htw : (c :: cs).takeWhile q = [] := by
            simp [List.takeWhile_cons, hq]
          have htw1 : List.takeWhile q [c] = [] := by
            simp [List.takeWhile_cons, hq]
          rw [htw, htw1]
    | cons r rs =>
      have hcc : rstripChars (c :: cs) = c :: r :: rs := by
        rw [rstrip_cons_eq, hr]
      rw [hr] at ih
      by_cases hq : q c = true
      · have h1 : (c :: cs).takeWhile q = c :: cs.takeWhile q := by
          simp [List.takeWhile_cons, hq]
        have h2 : (c :: r :: rs).takeWhile q = c :: (r :: rs).takeWhile q := by
          simp [List.takeWhile_cons, hq]
        rw [hcc, h2, h1]
        exact rstrip_cons_congr c ih
      · have h1 : (c :: cs).takeWhile q = [] := by
          simp [List.takeWhile_cons, hq]
        have h2 : (c :: r :: rs).takeWhile q = [] := by
          simp [List.takeWhile_cons, hq]
        rw [hcc, h2, h1]

theorem rstripChars_head_cases (c : Char) (cs : List Char) :
    rstripChars (c :: cs) = [] ∨ ∃ t, rstripChars (c :: cs) = c :: t := by
  simp only [rstripChars]
  cases rstripChars cs with
  | nil =>
    by_cases hs : pySpace c = true
    · left; simp [hs]
    · right; exact ⟨[], by simp [hs]⟩
  | cons r rs => right; exact ⟨r :: rs, rfl⟩

theorem dropWhile_eq_self_of_head {p : Char → Bool} {c : Char} {cs : List Char}
    (h : p c = false) : (c :: cs).dropWhile p = c :: cs := by
  simp [List.dropWhile_cons, h]

theorem head_of_dropWhile_false {p : Char → Bool} {c : Char} {cs : List Char} :
    ∀ {l : List Char}, l.dropWhile p = c :: cs → p c = false := by
  intro l
  induction l with
  | nil => intro h; simp [List.dropWhile_nil] at h
  | cons a as ih =>
    intro h
    by_cases hp : p a = true
    · rw [List.dropWhile_cons, if_pos hp] at h
      exact ih h
    · rw [List.dropWhile_cons, if_neg hp] at h
      cases h
      simpa using hp

/-- After `dropWhile pySpace`, `rstripChars`, and once more
`dropWhile pySpace`, the first drop is a no-op. -/
theorem dropWhile_rstrip_dropWhile (l : List Char) :
    (rstripChars (l.dropWhile pySpace)).dropWhile pySpace
      = rstripChars (l.dropWhile pySpace) := by
  cases hd : l.dropWhile pySpace with
  | nil => simp [rstripChars]
  | cons c cs =>
    have hc : pySpace c = false := head_of_dropWhile_false hd
    rcases rstripChars_head_cases c cs with h | ⟨t, h⟩
    · simp [h]
    · rw [h]; exact dropWhile_eq_self_of_head hc

theorem mem_of_mem_takeWhile {p : Char → Bool} {c : Char} :
    ∀ {l : List Char}, c ∈ l.takeWhile p → c ∈ l ∧ p c = true := by
  intro l
  induction l with
  | nil => intro h; simp at h
  | cons a as ih =>
    intro h
    by_cases hp : p a = true
    · rw [List.takeWhile_cons, if_pos hp] at h
      rcases List.mem_cons.mp h with h | h
      · subst h; exact ⟨List.mem_cons_self _ _, hp⟩
      · rcases ih h with ⟨h1, h2⟩
        exact ⟨List.mem_cons_of_mem _ h1, h2⟩
    · rw [List.takeWhile_cons, if_neg hp] at h
      simp at h

theorem mem_of_mem_dropWhile {p : Char → Bool} {c : Char} :
    ∀ {l : List Char}, c ∈ l.dropWhile p → c ∈ l := by
  intro l
  induction l with
  | nil => intro h; simp at h
  | cons a as ih =>
    intro h
    by_cases hp : p a = true
    · rw [List.dropWhile_cons, if_pos hp] at h
      exact List.mem_cons_of_mem _ (ih h)
    · rw [List.dropWhile_cons, if_neg hp] at h
      exact h

theorem mem_of_mem_rstrip {c : Char} :
    ∀ {l : List Char}, c ∈ rstripChars l → c ∈ l := by
  intro l
  induction l with
  | nil => intro h; simp [rstripChars] at h
  | cons a as ih =>
    intro h
    rw [rstrip_cons_eq] at h
    cases hr : rstripChars as with
    | nil =>
      rw [hr] at h
      by_cases hs : pySpace a = true
      · rw [if_pos hs] at h; simp at h
      · rw [if_neg hs] at h
        rcases List.mem_singleton.mp h with h
        subst h; exact List.mem_cons_self _ _
    | cons r rs =>
      rw [hr] at h
      rcases List.mem_cons.mp h with h | h
      · subst h; exact List.mem_cons_self _ _
      · exact List.mem_cons_of_mem _ (ih (hr ▸ h))

theorem mem_of_mem_pystrip {c : Char} {l : List Char}
    (h : c ∈ pystripChars l) : c ∈ l :=
  mem_of_mem_dropWhile (mem_of_mem_rstrip h)

theorem takeWhile_eq_self_of_all {p : Char → Bool} :
    ∀ {l : List Char}, (∀ c ∈ l, p c = true) → l.takeWhile p = l := by
  intro l
  induction l with
  | nil => intro _; rfl
  | cons a as ih =>
    intro h
    rw [List.takeWhile_cons, if_pos (h a (List.mem_cons_self _ _))]
    rw [ih (fun c hc => h c (List.mem_cons_of_mem _ hc))]

theorem rstrip_idem : ∀ l : List Char, rstripChars (rstripChars l) = rstripChars l := by
  intro l
  induction l with
  | nil => rfl
  | cons c cs ih =>
    cases hr : rstripChars cs with
    | nil =>
      rw [rstrip_cons_eq, hr]
      by_cases hs : pySpace c = true
      · rw [if_pos hs]; rfl
      · rw [if_neg hs, rstrip_cons_eq]
        simp [rstripChars, hs]
    | cons r rs =>
      have h1 : rstripChars (c :: cs) = c :: r :: rs := by rw [rstrip_cons_eq, hr]
      have h2 : rstripChars (r :: rs) = r :: rs := by rw [← hr, ih, hr]
      rw [h1, rstrip_cons_eq, h2]

theorem pystrip_idem (l : List Char) :
    pystripChars (pystripChars l) = pystripChars l := by
  show rstripChars ((rstripChars (l.dropWhile pySpace)).dropWhile pySpace)
      = rstripChars (l.dropWhile pySpace)
  rw [dropWhile_rstrip_dropWhile, rstrip_idem]

theorem depName_takeWhile_merge (l : List Char) :
    splitHead (fun c => c == ';') (splitHead (fun c => c == '[') l)
      = splitHead (fun c => c == '[' || c == ';') l := by
  unfold splitHead
  rw [takeWhile_takeWhile_eq]
  congr 1
  funext c
  simp [Bool.not_or]

theorem dropW_takeWhile_eq (q : Char → Bool) (u : List Char)
    (hu : ∀ c cs, u = c :: cs → pySpace c = false) :
    (u.takeWhile q).dropWhile pySpace = u.takeWhile q := by
  cases u with
  | nil => rfl
  | cons c cs =>
    have hc := hu c cs rfl
    by_cases hq : q c = true
    · rw [List.takeWhile_cons, if_pos hq]; exact dropWhile_eq_self_of_head hc
    · rw [List.takeWhile_cons, if_neg hq]; rfl

theorem rstrip_head_false {u : List Char}
    (hu : ∀ c cs, u = c :: cs → pySpace c = false) :
    ∀ c cs, rstripChars u = c :: cs → pySpace c = false := by
  intro c cs h
  cases u with
  | nil => simp [rstripChars] at h
  | cons a as =>
    rcases rstripChars_head_cases a as with h0 | ⟨t, h0⟩
    · rw [h0] at h; cases h
    · have h2 : a :: t = c :: cs := h0.symm.trans h
      have hac : a = c := (List.cons_eq_cons.mp h2).1
      have ha := hu a as rfl
      rwa [hac] at ha

theorem pystrip_splitHead_pystrip (l : List Char) :
    pystripChars (splitHead opChar (pystripChars l))
      = pystripChars (splitHead opChar l) := by
  have hw : ∀ c, pySpace c = true → (!(opChar c)) = true := by
    intro c h
    rw [pySpace_not_opChar h]
    rfl
  have hu : ∀ c cs, l.dropWhile pySpace = c :: cs → pySpace c = false :=
    fun c cs h => head_of_dropWhile_false h
  show rstripChars (((rstripChars (l.dropWhile pySpace)).takeWhile
        (fun c => !(opChar c))).dropWhile pySpace)
      = rstripChars ((l.takeWhile (fun c => !(opChar c))).dropWhile pySpace)
  rw [dropW_takeWhile_eq _ _ (rstrip_head_false hu)]
  rw [← takeWhile_dropWhile_comm _ _ hw]
  exact rstrip_takeWhile_rstrip _ hw _

theorem getDepName_eq_specNormalize (l : List Char) :
    getDepNameChars l = specNormalizeChars l := by
  unfold getDepNameChars specNormalizeChars
  rw [depName_takeWhile_merge, pystrip_splitHead_pystrip]

theorem getDepName_chars_clean {c : Char} {l : List Char}
    (h : c ∈ getDepNameChars l) :
    (c == '[') = false ∧ (c == ';') = false ∧ opChar c = false := by
  unfold getDepNameChars at h
  have h1 := mem_of_mem_pystrip h
  have h2 := mem_of_mem_takeWhile h1
  have h3 := mem_of_mem_pystrip h2.1
  have h4 := mem_of_mem_takeWhile h3
  have h5 := mem_of_mem_takeWhile h4.1
  refine ⟨?_, ?_, ?_⟩
  · simpa using h5.2
  · simpa using h4.2
  · simpa using h2.2

theorem pystrip_getDepName (l : List Char) :
    pystripChars (getDepNameChars l) = getDepNameChars l :=
  pystrip_idem _

theorem getDepNameChars_idem (l : List Char) :
    getDepNameChars (getDepNameChars l) = getDepNameChars l := by
  have h1 : splitHead (fun c => c == '[') (getDepNameChars l) = getDepNameChars l :=
    takeWhile_eq_self_of_all (fun c hc => by
      simp [(getDepName_chars_clean hc).1])
  have h2 : splitHead (fun c => c == ';') (getDepNameChars l) = getDepNameChars l :=
    takeWhile_eq_self_of_all (fun c hc => by
      simp [(getDepName_chars_clean hc).2.1])
  have h4 : splitHead opChar (getDepNameChars l) = getDepNameChars l :=
    takeWhile_eq_self_of_all (fun c hc => by
      simp [(getDepName_chars_clean hc).2.2])
  show pystripChars (splitHead opChar (pystripChars
    (splitHead (fun c => c == ';') (splitHead (fun c => c == '[') (getDepNameChars l)))))
      = getDepNameChars l
  rw [h1, h2, pystrip_getDepName, h4, pystrip_getDepName]

theorem pystrip_head_notspace (z : List Char) :
    pySpace ((pystripChars z).headD 'a') = false := by
  show pySpace ((rstripChars (z.dropWhile pySpace)).headD 'a') = false
  cases hd : z.dropWhile pySpace with
  | nil => decide
  | cons c cs =>
    have hc : pySpace c = false := head_of_dropWhile_false hd
    rcases rstripChars_head_cases c cs with h | ⟨t, h⟩
    · rw [h]; decide
    · rw [h]; exact hc

theorem getLastD_irrel (rs : List Char) (r d₁ d₂ : Char) :
    (r :: rs).getLastD d₁ = (r :: rs).getLastD d₂ := rfl

theorem rstrip_last_notspace :
    ∀ z : List Char, pySpace ((rstripChars z).getLastD 'a') = false := by
  intro z
  induction z with
  | nil => decide
  | cons c cs ih =>
    cases hr : rstripChars cs with
    | nil =>
      have hcc : rstripChars (c :: cs) = if pySpace c = true then [] else [c] := by
        rw [rstrip_cons_eq, hr]
      rw [hcc]
      by_cases hs : pySpace c = true
      · rw [if_pos hs]; decide
      · rw [if_neg hs]
        have e : ([c] : List Char).getLastD 'a' = c := rfl
        rw [e]
        simpa using hs
    | cons r rs =>
      have hcc : rstripChars (c :: cs) = c :: r :: rs := by rw [rstrip_cons_eq, hr]
      rw [hcc]
      have e1 : (c :: r :: rs).getLastD 'a' = (r :: rs).getLastD c := rfl
      rw [e1, getLastD_irrel rs r c 'a', ← hr]
      exact ih

-- ### Claims about the specifier normalizer

/-- The claim C5 instance `"pendulum; python_version>='3.8'"` (built from
character literals; `\x27` is the apostrophe). -/
def pendulumInput : String := String.mk
  ['p','e','n','d','u','l','u','m',';',' ','p','y','t','h','o','n','_',
   'v','e','r','s','i','o','n','>','=','\x27','3','.','8','\x27']

/-- C4: the specifier normalizer is idempotent — for every input string
`s`, `get_dep_name (get_dep_name s) = get_dep_name s`. -/
theorem claim_C4_normalizer_idempotent (s : String) :
    get_dep_name (get_dep_name s) = get_dep_name s :=
  congrArg String.mk (getDepNameChars_idem s.data)

/-- C5: for every input string the normalizer equals the spec algorithm
(truncate at the first `[` and the first `;`, then at the first of
`~ = > < !`, then trim whitespace); in particular the extras/marker
examples normalize to the bare name and an input starting with an
operator normalizes to the empty string. -/
theorem claim_C5_normalizer_algorithm :
    (∀ s : String, get_dep_name s = specNormalize s)
    ∧ get_dep_name "fastapi[standard]>=0.100,<1.0" = "fastapi"
    ∧ get_dep_name pendulumInput = "pendulum"
    ∧ get_dep_name ">=1" = "" :=
  ⟨fun s => congrArg String.mk (getDepName_eq_specNormalize s.data),
   by decide, by decide, by decide⟩

/-- C9: the normalizer is a total function (it is a Lean `def`, defined on
every string) whose output never contains `[`, `;`, `~`, `=`, `>`, `<`
or `!` and carries no leading or trailing whitespace. -/
theorem claim_C9_normalizer_output_invariants (s : String) :
    (∀ c ∈ (get_dep_name s).data, c ∉ ['[', ';', '~', '=', '>', '<', '!'])
    ∧ pySpace ((get_dep_name s).data.headD 'a') = false
    ∧ pySpace ((get_dep_name s).data.getLastD 'a') = false := by
  refine ⟨?_, ?_, ?_⟩
  · intro c hc hmem
    have hclean : (c == '[') = false ∧ (c == ';') = false ∧ opChar c = false :=
      getDepName_chars_clean hc
    obtain ⟨h1, h2, h3⟩ := hclean
    fin_cases hmem <;> simp_all [opChar]
  · exact pystrip_head_notspace _
  · exact rstrip_last_notspace _

-- ### Filter step (lines 188-190 of the script)

/-- Python `str.lower()` (ASCII model). -/
def pyLower (s : String) : String := String.mk (s.data.map Char.toLower)

/-- `needle` is an initial segment of the second list. -/
def beginsChars : List Char → List Char → Bool
  | [], _ => true
  | _ :: _, [] => false
  | a :: as, b :: bs => a == b && beginsChars as bs

/-- Python substring test `needle in hay` on character lists. -/
def hasSubChars (needle : List Char) : List Char → Bool
  | [] => beginsChars needle []
  | b :: bs => beginsChars needle (b :: bs) || hasSubChars needle bs

/-- Python `needle in hay` for strings. -/
def pyContains (hay needle : String) : Bool := hasSubChars needle.data hay.data

/-- The display-list computation of the script:
`filtered = requirements` and, when the filter string is non-empty (truthy),
`[req for req in requirements if args.filter_substring.lower() in get_dep_name(req).lower()]`. -/
def filteredReqs (requirements : List String) (filterSub : String) : List String :=
  if filterSub == "" then requirements
  else requirements.filter
    (fun req => pyContains (pyLower (get_dep_name req)) (pyLower filterSub))

theorem hasSub_nil (h : List Char) : hasSubChars [] h = true := by
  cases h <;> simp [hasSubChars, beginsChars]

/-- C7: the display list is exactly the original list filtered by
case-insensitive substring match of the filter against the normalized
bare name, preserving order; with an empty (absent) filter every entry
passes unchanged. -/
theorem claim_C7_filter_semantics (reqs : List String) (sub : String) :
    filteredReqs reqs sub
      = reqs.filter (fun r => pyContains (pyLower (get_dep_name r)) (pyLower sub))
    ∧ filteredReqs reqs "" = reqs := by
  constructor
  · by_cases h : sub = ""
    · subst h
      show reqs = _
      symm
      apply List.filter_eq_self.mpr
      intro r _
      exact hasSub_nil _
    · unfold filteredReqs
      rw [if_neg (by simpa using h)]
  · rfl

-- ### CLI argument validation (`validate_args`)

inductive Mode where
  | remote
  | localDir
  | localFile
deriving DecidableEq

structure Args where
  packageName : String
  repo : String
  mode : Mode
  filterSub : String

/-- Characters `urllib.parse` accepts inside a URL scheme. -/
def schemeChar (c : Char) : Bool := c.isAlphanum || c == '+' || c == '-' || c == '.'

/-- Scheme extraction of `urllib.parse.urlparse` (model): the lowercased
part before the first `:`, when a `:` is present, the part starting with
a letter and made of scheme characters; otherwise the empty string. -/
def urlScheme (s : String) : String :=
  match s.data.takeWhile (fun c => !(c == ':')) with
  | [] => ""
  | c :: cs =>
    if ((c :: cs).length < s.data.length && c.isAlpha)
        && (c :: cs).all schemeChar then
      String.mk ((c :: cs).map Char.toLower)
    else ""

def supportedArchiveExts : List String := [".zip", ".tar.gz", ".tar", ".tar.bz2", ".whl"]

/-- The second list is a final segment of the first. -/
def endsWithChars (l suf : List Char) : Bool := beginsChars suf.reverse l.reverse

/-- Python `s.endswith(tuple)`. -/
def pyEndsWithAny (s : String) (sufs : List String) : Bool :=
  sufs.any (fun suf => endsWithChars s.data suf.data)

/-- The character class of `^[A-Za-z0-9_-]+$`. -/
def validNameChar (c : Char) : Bool := c.isAlphanum || c == '_' || c == '-'

/-- `re.match(r'^[A-Za-z0-9_-]+$', args.package_name.replace("-", "").replace("_", ""))`
as a boolean. -/
def packageNameMatches (name : String) : Bool :=
  let t := name.data.filter (fun c => !(c == '-') && !(c == '_'))
  !(t.isEmpty) && t.all validNameChar

def acceptedSchemes : List String := ["http", "https", "https", "git", "git+http", "git+https"]

/-- `validate_args`: the collected list of validation errors, modelled by
short tags (the script prints Russian sentences for the same conditions);
`repoIsDir`/`repoIsFile` stand for `os.path.isdir`/`os.path.isfile` on
`args.repo`.  The filter-substring check of the script
(`is not None and not isinstance(..., str)`) can never fire for an
argparse-produced string and contributes no error. -/
def validate_args (a : Args) (repoIsDir repoIsFile : Bool) : List String :=
  let nameErrs :=
    if a.packageName == "" then ["empty-package-name"]
    else if !(packageNameMatches a.packageName) then ["invalid-package-name"]
    else []
  let repoErrs :=
    match a.mode with
    | .remote =>
      if urlScheme a.repo == "" || !(acceptedSchemes.contains (urlScheme a.repo)) then
        ["invalid-remote-url"]
      else []
    | .localDir => if !repoIsDir then ["not-a-directory"] else []
    | .localFile =>
      (if !repoIsFile then ["not-a-file"] else [])
        ++ (if !(pyEndsWithAny (pyLower a.repo) supportedArchiveExts) then
              ["unsupported-archive-extension"]
            else [])
  nameErrs ++ repoErrs

/-- The main flow runs extraction only when `validate_args` collected no
errors; otherwise it prints them and calls `sys.exit(1)`. -/
def extractionReached (a : Args) (repoIsDir repoIsFile : Bool) : Bool :=
  (validate_args a repoIsDir repoIsFile).isEmpty

def validationExitCode (a : Args) (repoIsDir repoIsFile : Bool) : Nat :=
  if (validate_args a repoIsDir repoIsFile).isEmpty then 0 else 1

/-- C10: in `local-file` mode, a repo path whose lowercased name does not
end in one of `.zip`, `.tar.gz`, `.tar`, `.tar.bz2`, `.whl` always
collects a validation error, so the run exits non-zero before any
extraction. -/
theorem claim_C10_archive_extension_whitelist (a : Args) (d f : Bool)
    (hm : a.mode = Mode.localFile)
    (he : pyEndsWithAny (pyLower a.repo) supportedArchiveExts = false) :
    "unsupported-archive-extension" ∈ validate_args a d f
    ∧ validate_args a d f ≠ []
    ∧ extractionReached a d f = false
    ∧ validationExitCode a d f = 1 := by
  have hx : "unsupported-archive-extension" ∈ validate_args a d f := by
    unfold validate_args
    rw [hm]
    simp [he]
  have hne : validate_args a d f ≠ [] := by
    intro h0
    rw [h0] at hx
    simp at hx
  have hemp : (validate_args a d f).isEmpty = false := by
    cases hv : validate_args a d f with
    | nil => exact absurd hv hne
    | cons x xs => rfl
  refine ⟨hx, hne, ?_, ?_⟩
  · unfold extractionReached
    exact hemp
  · unfold validationExitCode
    rw [hemp]
    rfl

/-- Witness for C10 at the concrete input `pkg` / `package.rar` /
`local-file` (an existing file with an unsupported extension). -/
theorem claim_C10_witness :
    "unsupported-archive-extension"
        ∈ validate_args ⟨"pkg", "package.rar", Mode.localFile, ""⟩ false true
    ∧ extractionReached ⟨"pkg", "package.rar", Mode.localFile, ""⟩ false true = false :=
  ⟨(claim_C10_archive_extension_whitelist _ false true rfl (by decide)).1,
   (claim_C10_archive_extension_whitelist _ false true rfl (by decide)).2.2.1⟩

-- ### TOML model and the manifest extractor

/-- TOML values as produced by `tomllib.load`, restricted to the shapes
the dependency logic touches: strings, arrays of strings, and tables.
Other value kinds (numbers, booleans, dates, heterogeneous arrays) never
appear in the positions the manifest logic reads and are outside the
model. -/
inductive Toml where
  | str (s : String)
  | arr (xs : List String)
  | table (kvs : List (String × Toml))

abbrev TomlTable := List (String × Toml)

/-- Python `dict` lookup (TOML keys are unique, so first match). -/
def assocLookup {α : Type} : List (String × α) → String → Option α
  | [], _ => none
  | (k0, v) :: rest, k => if k0 == k then some v else assocLookup rest k

/-- Outcome of the PEP 621 step
(`if "project" in data and "dependencies" in data["project"]:
requirements = data["project"].get("dependencies", [])`).
`raise` marks the paths where the Python expression raises inside the
enclosing `try` (membership test or `.get` on a non-dict); `nonList v`
marks a present `dependencies` value that is not an array — the Python
code would carry that raw value through the remaining truthiness checks
and return it (or crash appending to it), a dynamically-typed path
outside the shapes the spec describes, so the model stops there and
reports the raw value. -/
inductive PepOut where
  | reqs (xs : List String)
  | raise
  | nonList (v : Toml)

def pep621Step (data : TomlTable) : PepOut :=
  match assocLookup data "project" with
  | none => .reqs []
  | some (.str s) =>
    if hasSubChars "dependencies".data s.data then .raise else .reqs []
  | some (.arr xs) =>
    if xs.contains "dependencies" then .raise else .reqs []
  | some (.table proj) =>
    match assocLookup proj "dependencies" with
    | none => .reqs []
    | some (.arr xs) => .reqs xs
    | some v => .nonList v

/-- The Poetry emission loop
(`for name, spec in deps.items(): ...`): skip names whose `.lower()` is
`python`; a string value emits `name + spec`; a dict value emits
`name + ("[" + ",".join(extras) + "]" if joined non-empty) + version`;
other value kinds (arrays) match neither `isinstance` branch and emit
nothing.  A non-string `version` value or non-array `extras` value would
be formatted/joined by Python as raw objects — outside the model, which
treats them as absent. -/
def poetryEmit (deps : TomlTable) : List String :=
  deps.flatMap (fun nv =>
    if pyLower nv.1 == "python" then []
    else
      match nv.2 with
      | .str v => [nv.1 ++ v]
      | .table spec =>
        let version :=
          match assocLookup spec "version" with
          | some (.str v) => v
          | _ => ""
        let extras :=
          match assocLookup spec "extras" with
          | some (.arr xs) => xs
          | _ => []
        let joined := String.intercalate "," extras
        let extrasPart := if joined == "" then "" else "[" ++ joined ++ "]"
        [nv.1 ++ extrasPart ++ version]
      | .arr _ => [])

/-- The Poetry step
(`if not requirements and "tool" in data and "poetry" in data["tool"]`),
including the paths where the Python indexing/`.get`/`.items()` raises a
`TypeError`/`AttributeError` inside the enclosing `try` (`.error ()`). -/
def poetryStep (data : TomlTable) : Except Unit (List String) :=
  match assocLookup data "tool" with
  | none => .ok []
  | some (.str s) =>
    if hasSubChars "poetry".data s.data then .error () else .ok []
  | some (.arr xs) =>
    if xs.contains "poetry" then .error () else .ok []
  | some (.table t) =>
    match assocLookup t "poetry" with
    | none => .ok []
    | some (.str _) => .error ()
    | some (.arr _) => .error ()
    | some (.table p) =>
      match assocLookup p "dependencies" with
      | none => .ok []
      | some (.str _) => .error ()
      | some (.arr _) => .error ()
      | some (.table deps) => .ok (poetryEmit deps)

/-- Result of the whole `pyproject.toml` strategy: the requirements list
plus whether a caught exception was logged, or the non-array
`project.dependencies` escape. -/
inductive StageOut where
  | found (reqs : List String) (logged : Bool)
  | nonList (v : Toml)

def tomlStage (data : TomlTable) : StageOut :=
  match pep621Step data with
  | .nonList v => .nonList v
  | .raise => .found [] true
  | .reqs xs =>
    if xs.isEmpty then
      match poetryStep data with
      | .error _ => .found [] true
      | .ok ys => .found ys false
    else .found xs false

-- ### setup.cfg model

/-- A parsed `setup.cfg`: sections mapping option names to raw string
values.  `configparser` lowercases option names on read; the model
assumes keys are stored as the parser would expose them. -/
structure CfgFile where
  sections : List (String × List (String × String))

/-- `str.splitlines` restricted to `\n` separators (the only separator
occurring in INI option values read by `configparser`, which itself
joins continuation lines with `\n`). -/
def splitOnNl : List Char → List (List Char)
  | [] => [[]]
  | c :: cs =>
    if c == '\n' then [] :: splitOnNl cs
    else
      match splitOnNl cs with
      | [] => [[c]]
      | line :: rest => (c :: line) :: rest

/-- The `setup.cfg` strategy body: the `options`/`install_requires`
value split into lines, each stripped, keeping non-empty lines not
starting with `#`. -/
def cfgExtract (cfg : CfgFile) : List String :=
  match assocLookup cfg.sections "options" with
  | none => []
  | some opts =>
    match assocLookup opts "install_requires" with
    | none => []
    | some v =>
      (((splitOnNl v.data).map pystripChars).filter
        (fun line => !(line.isEmpty) && !(beginsChars ['#'] line))).map String.mk

-- ### setup.py AST model

/-- Python expressions, restricted to the node kinds the `SetupVisitor`
logic distinguishes: names, attribute accesses, string constants, list
literals, and calls (with positional arguments and keyword arguments
whose name is `none` for `**kwargs`). -/
inductive PyExpr where
  | name (id : String)
  | attr (base : PyExpr) (attrName : String)
  | constStr (s : String)
  | listE (elts : List PyExpr)
  | call (func : PyExpr) (args : List PyExpr) (kwargs : List (Option String × PyExpr))

/-- `func.id if isinstance(func, ast.Name) else getattr(func, "attr", None)`
compared against `"setup"`. -/
def calleeIsSetup : PyExpr → Bool
  | .name id => id == "setup"
  | .attr _ a => a == "setup"
  | _ => false

/-- `elt.value if hasattr(elt, "value") else elt.s` for a list element:
a string constant yields its value; for the other modelled node kinds
the Python expression raises `AttributeError` (no `.s` on modern `ast`
nodes), modelled as the error case.  (`ast.Attribute` does expose a
`value` attribute — there Python would append the raw AST node, a
non-string the surrounding program never produces; the model folds that
path into the raising case.) -/
def eltStr : PyExpr → Except Unit String
  | .constStr s => .ok s
  | _ => .error ()

/-- The inner element loop: append each element in order; an exception
aborts the visit keeping the already-appended prefix. -/
def appendElts (acc : List String) : List PyExpr → Except (List String) (List String)
  | [] => .ok acc
  | e :: es =>
    match eltStr e with
    | .ok s => appendElts (acc ++ [s]) es
    | .error _ => .error acc

/-- The keyword loop of `visit_Call`: a keyword named `install_requires`
whose value is a list literal contributes its elements. -/
def processKws (acc : List String) : List (Option String × PyExpr) → Except (List String) (List String)
  | [] => .ok acc
  | kv :: rest =>
    if kv.1 == some "install_requires" then
      match kv.2 with
      | .listE elts =>
        match appendElts acc elts with
        | .ok acc2 => processKws acc2 rest
        | .error p => .error p
      | _ => processKws acc rest
    else processKws acc rest

mutual

/-- `ast.NodeVisitor` dispatch as `SetupVisitor` defines it: `visit_Call`
handles call nodes (and, not calling `generic_visit`, never descends
into a call's children); every other node is traversed by
`generic_visit`, i.e. its children are visited in order. -/
def visitExpr (acc : List String) : PyExpr → Except (List String) (List String)
  | .name _ => .ok acc
  | .constStr _ => .ok acc
  | .attr b _ => visitExpr acc b
  | .listE es => visitList acc es
  | .call f _ kws =>
    if calleeIsSetup f then processKws acc kws else .ok acc

/-- Visiting a list of child nodes left to right, threading the
requirements list and propagating an exception. -/
def visitList (acc : List String) : List PyExpr → Except (List String) (List String)
  | [] => .ok acc
  | e :: es =>
    match visitExpr acc e with
    | .ok acc2 => visitList acc2 es
    | .error p => .error p

end

-- ### The extractor over a package root

/-- The files of a resolved package root as the extractor reads them:
`none` means the file does not exist; `some (.error ())` means reading or
parsing the file raises; `some (.ok v)` is the parsed content.  A
`setup.py` module is modelled by its top-level expression statements. -/
structure PackageRoot where
  pyproject : Option (Except Unit TomlTable)
  setupCfg : Option (Except Unit CfgFile)
  setupPy : Option (Except Unit (List PyExpr))

/-- Result of a full extraction: the returned requirements plus the
filenames logged to stderr, a propagated (uncaught) exception, or the
non-list escape of `pep621Step`. -/
inductive ExtractOut where
  | ok (reqs : List String) (logs : List String)
  | fatal (logs : List String)
  | nonList (v : Toml) (logs : List String)

/-- The `pyproject.toml` strategy over the package root: a `tomllib`
parse error is caught inside the `try` and logged. -/
def pyprojectYield (root : PackageRoot) : (List String × List String) ⊕ Toml :=
  match root.pyproject with
  | none => .inl ([], [])
  | some (.error _) => .inl ([], ["pyproject.toml"])
  | some (.ok data) =>
    match tomlStage data with
    | .found xs logged => .inl (xs, if logged then ["pyproject.toml"] else [])
    | .nonList v => .inr v

/-- Strategy 3 (`setup.py`): guarded by `not requirements`; a parse error
of `ast.parse` is caught and logged; an exception during the visit is
caught and logged, keeping what was appended before it. -/
def setupPyStep (sp : Option (Except Unit (List PyExpr))) (reqs logs : List String) :
    ExtractOut :=
  if reqs.isEmpty then
    match sp with
    | none => .ok reqs logs
    | some (.error _) => .ok reqs (logs ++ ["setup.py"])
    | some (.ok m) =>
      match visitList reqs m with
      | .ok l => .ok l logs
      | .error p => .ok p (logs ++ ["setup.py"])
  else .ok reqs logs

/-- Strategy 2 (`setup.cfg`): guarded by `not requirements`.  The block
has no `try`/`except`, so a `configparser` parse error propagates out of
`extract_direct_dependencies` (the `fatal` case). -/
def setupCfgStep (root : PackageRoot) (reqs logs : List String) : ExtractOut :=
  if reqs.isEmpty then
    match root.setupCfg with
    | none => setupPyStep root.setupPy reqs logs
    | some (.error _) => .fatal logs
    | some (.ok cfg) => setupPyStep root.setupPy (cfgExtract cfg) logs
  else .ok reqs logs

/-- `extract_direct_dependencies`: the three strategies in order. -/
def extract_direct_dependencies (root : PackageRoot) : ExtractOut :=
  match pyprojectYield root with
  | .inr v => .nonList v []
  | .inl (reqs1, logs1) => setupCfgStep root reqs1 logs1

/-- Exit status of the analysis run after validation and workspace
resolution succeeded: an uncaught exception terminates the interpreter
with status 1; otherwise the report prints and the run exits 0. -/
def analysisExit (root : PackageRoot) : Nat :=
  match extract_direct_dependencies root with
  | .fatal _ => 1
  | _ => 0

-- ### Claims C1, C2, C8 about the extractor

/-- A package root whose `setup.cfg` raises a parse error while a
`setup.py` with dependencies is also present. -/
def c1Root : PackageRoot :=
  ⟨none, some (Except.error ()),
   some (Except.ok [PyExpr.call (PyExpr.name "setup") []
     [(some "install_requires", PyExpr.listE [PyExpr.constStr "flask"])]])⟩

/-- C1 counterexample: with no `pyproject.toml`, a `setup.cfg` whose
parse raises, and a `setup.py` declaring `flask`, the extraction
propagates the exception — nothing is logged, the build-script strategy
is never reached, and the run terminates with a non-zero status,
contradicting the claimed catch-log-and-fall-through behaviour. -/
theorem claim_C1_counterexample :
    extract_direct_dependencies c1Root = ExtractOut.fatal []
    ∧ analysisExit c1Root = 1 := ⟨rfl, rfl⟩

/-- C1 amended: a `setup.cfg` read/parse error is NOT caught — whenever
the `pyproject.toml` strategy yields nothing, an erroring `setup.cfg`
makes `extract_direct_dependencies` propagate the exception: no log line
is added for it, the build-script strategy is skipped, and the run
terminates with non-zero status. -/
theorem claim_C1_amended (root : PackageRoot) (logs : List String)
    (hp : pyprojectYield root = Sum.inl ([], logs))
    (hc : root.setupCfg = some (Except.error ())) :
    extract_direct_dependencies root = ExtractOut.fatal logs
    ∧ analysisExit root = 1 := by
  have he : extract_direct_dependencies root = ExtractOut.fatal logs := by
    simp [extract_direct_dependencies, hp, setupCfgStep, hc]
  exact ⟨he, by simp [analysisExit, he]⟩

/-- A package root whose `pyproject.toml` and `setup.cfg` both raise. -/
def c1RootB : PackageRoot := ⟨some (Except.error ()), some (Except.error ()), none⟩

/-- Witness for the amended C1 at a concrete root whose `pyproject.toml`
error was logged before the fatal `setup.cfg` error. -/
theorem claim_C1_witness :
    extract_direct_dependencies c1RootB = ExtractOut.fatal ["pyproject.toml"]
    ∧ analysisExit c1RootB = 1 :=
  claim_C1_amended c1RootB ["pyproject.toml"] rfl rfl

/-- C2: a parsed `pyproject.toml` whose top-level `project` table has a
non-empty `dependencies` array makes extraction return exactly that
array (whatever the Poetry table, `setup.cfg` or `setup.py` contain),
with nothing logged. -/
theorem claim_C2_pep621_priority (root : PackageRoot) (data proj : TomlTable)
    (deps : List String)
    (h1 : root.pyproject = some (Except.ok data))
    (h2 : assocLookup data "project" = some (Toml.table proj))
    (h3 : assocLookup proj "dependencies" = some (Toml.arr deps))
    (h4 : deps ≠ []) :
    extract_direct_dependencies root = ExtractOut.ok deps [] := by
  have hne : deps.isEmpty = false := by
    cases deps with
    | nil => exact absurd rfl h4
    | cons a as => rfl
  have hpep : pep621Step data = PepOut.reqs deps := by
    simp [pep621Step, h2, h3]
  have hts : tomlStage data = StageOut.found deps false := by
    simp [tomlStage, hpep, hne]
  have hpy : pyprojectYield root = Sum.inl (deps, []) := by
    simp [pyprojectYield, h1, hts]
  simp [extract_direct_dependencies, hpy, setupCfgStep, hne]

/-- The spec instance for C2: PEP 621 dependencies `["a>=1", "b"]` with a
Poetry block also present, plus an erroring `setup.cfg` that must never
be consulted. -/
def c2Root : PackageRoot :=
  ⟨some (Except.ok
    [("project", Toml.table [("dependencies", Toml.arr ["a>=1", "b"])]),
     ("tool", Toml.table [("poetry", Toml.table
       [("dependencies", Toml.table [("c", Toml.str "1")])])])]),
   some (Except.error ()), none⟩

/-- Witness for C2 at the spec instance. -/
theorem claim_C2_witness :
    extract_direct_dependencies c2Root = ExtractOut.ok ["a>=1", "b"] [] :=
  claim_C2_pep621_priority c2Root _ _ _ rfl rfl rfl (by decide)

/-- C8: a package root with none of the three manifest files yields the
empty list, nothing logged, and the run exits 0. -/
theorem claim_C8_no_manifest (root : PackageRoot)
    (h1 : root.pyproject = none)
    (h2 : root.setupCfg = none)
    (h3 : root.setupPy = none) :
    extract_direct_dependencies root = ExtractOut.ok [] []
    ∧ analysisExit root = 0 := by
  have he : extract_direct_dependencies root = ExtractOut.ok [] [] := by
    simp [extract_direct_dependencies, pyprojectYield, h1, setupCfgStep, h2,
      setupPyStep, h3]
  exact ⟨he, by simp [analysisExit, he]⟩

def emptyRoot : PackageRoot := ⟨none, none, none⟩

/-- Witness for C8 at the empty package root. -/
theorem claim_C8_witness :
    extract_direct_dependencies emptyRoot = ExtractOut.ok [] []
    ∧ analysisExit emptyRoot = 0 :=
  claim_C8_no_manifest emptyRoot rfl rfl rfl

-- ### Claim C3: the Poetry emission rules

/-- Rendering of one non-skipped Poetry entry, as the amended claim
words it: a plain string value emits `name ++ version`; a table value
emits `name ++ bracketed extras ++ version` where the bracket segment is
present exactly when the comma-joined extras string is non-empty; an
array value emits nothing. -/
def poetryRenderSpec (nv : String × Toml) : Option String :=
  match nv.2 with
  | .str v => some (nv.1 ++ v)
  | .table spec =>
    let version :=
      match assocLookup spec "version" with
      | some (.str v) => v
      | _ => ""
    let extras :=
      match assocLookup spec "extras" with
      | some (.arr xs) => xs
      | _ => []
    let joined := String.intercalate "," extras
    some (nv.1 ++ (if joined == "" then "" else "[" ++ joined ++ "]") ++ version)
  | .arr _ => none

/-- The Poetry strategy as the amended claim words it: drop the entries
whose name lowercases to `python`, then render each remaining entry. -/
def poetrySpecAmended (deps : TomlTable) : List String :=
  (deps.filter (fun nv => !(pyLower nv.1 == "python"))).filterMap poetryRenderSpec

/-- Rendering per the original claim wording: only the entry literally
named `python` is skipped, and the bracket segment is omitted exactly
when the extras list is empty. -/
def poetryRenderLiteral (nv : String × Toml) : Option String :=
  match nv.2 with
  | .str v => some (nv.1 ++ v)
  | .table spec =>
    let version :=
      match assocLookup spec "version" with
      | some (.str v) => v
      | _ => ""
    let extras :=
      match assocLookup spec "extras" with
      | some (.arr xs) => xs
      | _ => []
    some (nv.1 ++ (if extras.isEmpty then "" else "[" ++ String.intercalate "," extras ++ "]")
      ++ version)
  | .arr _ => none

/-- The Poetry strategy as claim C3 literally states it. -/
def poetrySpecLiteral (deps : TomlTable) : List String :=
  (deps.filter (fun nv => !(nv.1 == "python"))).filterMap poetryRenderLiteral

theorem poetryEmit_cons (nv : String × Toml) (rest : TomlTable) :
    poetryEmit (nv :: rest)
      = (if pyLower nv.1 == "python" then []
         else (poetryRenderSpec nv).toList) ++ poetryEmit rest := by
  show ((nv :: rest).flatMap _) = _
  rw [List.flatMap_cons]
  congr 1
  by_cases hp : (pyLower nv.1 == "python") = true
  · simp [hp]
  · simp only [hp, Bool.false_eq_true, if_false]
    cases h2 : nv.2 with
    | str v => simp [poetryRenderSpec, h2]
    | arr xs => simp [poetryRenderSpec, h2]
    | table spec => simp [poetryRenderSpec, h2]

theorem poetrySpecAmended_cons (nv : String × Toml) (rest : TomlTable) :
    poetrySpecAmended (nv :: rest)
      = (if pyLower nv.1 == "python" then []
         else (poetryRenderSpec nv).toList) ++ poetrySpecAmended rest := by
  unfold poetrySpecAmended
  rw [List.filter_cons]
  by_cases hp : (pyLower nv.1 == "python") = true
  · simp [hp]
  · simp only [hp, Bool.not_false, Bool.false_eq_true, if_false, if_true]
    rw [List.filterMap_cons]
    cases h : poetryRenderSpec nv <;> simp [h]

/-- The source Poetry loop agrees with the amended-claim formulation on
every dependency table. -/
theorem poetryEmit_eq_amended (deps : TomlTable) :
    poetryEmit deps = poetrySpecAmended deps := by
  induction deps with
  | nil => rfl
  | cons nv rest ih => rw [poetryEmit_cons, poetrySpecAmended_cons, ih]

/-- The Poetry table `{Python = "3.8", numpy = "^1.20"}`. -/
def c3Deps : TomlTable := [("Python", Toml.str "3.8"), ("numpy", Toml.str "^1.20")]

/-- A package root holding only that Poetry table. -/
def c3Root : PackageRoot :=
  ⟨some (Except.ok [("tool", Toml.table [("poetry", Toml.table
    [("dependencies", Toml.table c3Deps)])])]), none, none⟩

/-- C3 counterexample: the code skips the entry named `Python`
case-insensitively, while the claim (skip only the literal `python`)
predicts an emitted `Python3.8` entry. -/
theorem claim_C3_counterexample :
    extract_direct_dependencies c3Root = ExtractOut.ok ["numpy^1.20"] []
    ∧ poetrySpecLiteral c3Deps = ["Python3.8", "numpy^1.20"]
    ∧ (["numpy^1.20"] : List String) ≠ ["Python3.8", "numpy^1.20"] :=
  ⟨rfl, rfl, by decide⟩

/-- C3 amended: when extraction reaches the Poetry strategy (the PEP 621
step yielded nothing) over a `tool.poetry.dependencies` table, the
entries whose name lowercases to `python` are skipped and each remaining
entry is rendered in declaration order — a string value as
`name ++ version`, a table value as `name ++ [joined extras] ++ version`
with the bracket segment omitted exactly when the comma-joined extras
string is empty (missing `version` defaulting to the empty string) — and
when this yields a non-empty list it is the extraction result. -/
theorem claim_C3_amended (root : PackageRoot) (data t p deps : TomlTable)
    (h1 : root.pyproject = some (Except.ok data))
    (hpep : pep621Step data = PepOut.reqs [])
    (h2 : assocLookup data "tool" = some (Toml.table t))
    (h3 : assocLookup t "poetry" = some (Toml.table p))
    (h4 : assocLookup p "dependencies" = some (Toml.table deps))
    (h5 : poetryEmit deps ≠ []) :
    poetryEmit deps = poetrySpecAmended deps
    ∧ extract_direct_dependencies root = ExtractOut.ok (poetrySpecAmended deps) [] := by
  have hne : (poetryEmit deps).isEmpty = false := by
    cases hval : poetryEmit deps with
    | nil => exact absurd hval h5
    | cons a as => rfl
  have hpo : poetryStep data = Except.ok (poetryEmit deps) := by
    simp [poetryStep, h2, h3, h4]
  have hts : tomlStage data = StageOut.found (poetryEmit deps) false := by
    simp [tomlStage, hpep, hpo]
  have hpy : pyprojectYield root = Sum.inl (poetryEmit deps, []) := by
    simp [pyprojectYield, h1, hts]
  refine ⟨poetryEmit_eq_amended deps, ?_⟩
  rw [← poetryEmit_eq_amended deps]
  simp [extract_direct_dependencies, hpy, setupCfgStep, hne]

/-- The spec instance table
`{numpy = "^1.20", requests = {version = ">=2", extras = ["security"]}}`. -/
def c3WitnessDeps : TomlTable :=
  [("numpy", Toml.str "^1.20"),
   ("requests", Toml.table [("version", Toml.str ">=2"),
     ("extras", Toml.arr ["security"])])]

def c3WitnessRoot : PackageRoot :=
  ⟨some (Except.ok [("tool", Toml.table [("poetry", Toml.table
    [("dependencies", Toml.table c3WitnessDeps)])])]), none, none⟩

/-- Witness for the amended C3 at the spec instance. -/
theorem claim_C3_witness :
    poetryEmit c3WitnessDeps = poetrySpecAmended c3WitnessDeps
    ∧ extract_direct_dependencies c3WitnessRoot
        = ExtractOut.ok (poetrySpecAmended c3WitnessDeps) [] :=
  claim_C3_amended c3WitnessRoot _ _ _ _ rfl rfl rfl rfl rfl (by decide)

-- ### Claim C6: build-script inspection

/-- The string values of a literal list (spec side): each string-constant
element contributes its value. -/
def strListElems : PyExpr → List String
  | .listE es => es.filterMap (fun e => match e with | .constStr s => some s | _ => none)
  | _ => []

/-- What one `setup(...)` call contributes: the elements of each keyword
argument named `install_requires` whose value is a literal list. -/
def setupContribution (kws : List (Option String × PyExpr)) : List String :=
  kws.flatMap (fun kv => if kv.1 == some "install_requires" then strListElems kv.2 else [])

mutual

/-- Collector per the original claim C6 wording: every call expression
anywhere in the tree whose callee is named `setup` contributes. -/
def allSetupDeps : PyExpr → List String
  | .name _ => []
  | .constStr _ => []
  | .attr b _ => allSetupDeps b
  | .listE es => allSetupDepsList es
  | .call f args kws =>
    (if calleeIsSetup f then setupContribution kws else [])
      ++ allSetupDeps f ++ allSetupDepsList args ++ allSetupDepsKws kws

def allSetupDepsList : List PyExpr → List String
  | [] => []
  | e :: es => allSetupDeps e ++ allSetupDepsList es

def allSetupDepsKws : List (Option String × PyExpr) → List String
  | [] => []
  | kv :: rest => allSetupDeps kv.2 ++ allSetupDepsKws rest

end

mutual

/-- Collector per the amended claim: only call expressions not enclosed
in another call expression are inspected (the visitor never descends
into a call's children), in depth-first source order. -/
def topSetupDeps : PyExpr → List String
  | .name _ => []
  | .constStr _ => []
  | .attr b _ => topSetupDeps b
  | .listE es => topSetupDepsList es
  | .call f _ kws => if calleeIsSetup f then setupContribution kws else []

def topSetupDepsList : List PyExpr → List String
  | [] => []
  | e :: es => topSetupDeps e ++ topSetupDepsList es

end

theorem appendElts_ok :
    ∀ (elts : List PyExpr) (acc l : List String), appendElts acc elts = Except.ok l →
      l = acc ++ elts.filterMap (fun e => match e with | PyExpr.constStr s => some s | _ => none) := by
  intro elts
  induction elts with
  | nil =>
    intro acc l h
    simp [appendElts] at h
    simp [h]
  | cons e es ih =>
    intro acc l h
    cases e with
    | constStr s =>
      simp only [appendElts, eltStr] at h
      have := ih (acc ++ [s]) l h
      simp [this, List.filterMap_cons]
    | name id => simp [appendElts, eltStr] at h
    | attr b a => simp [appendElts, eltStr] at h
    | listE xs => simp [appendElts, eltStr] at h
    | call f args kws => simp [appendElts, eltStr] at h

theorem setupContribution_cons (kv : Option String × PyExpr)
    (rest : List (Option String × PyExpr)) :
    setupContribution (kv :: rest)
      = (if kv.1 == some "install_requires" then strListElems kv.2 else [])
        ++ setupContribution rest := by
  simp [setupContribution, List.flatMap_cons]

theorem processKws_ok :
    ∀ (kws : List (Option String × PyExpr)) (acc l : List String),
      processKws acc kws = Except.ok l → l = acc ++ setupContribution kws := by
  intro kws
  induction kws with
  | nil =>
    intro acc l h
    simp [processKws] at h
    simp [h, setupContribution]
  | cons kv rest ih =>
    intro acc l h
    obtain ⟨a, v⟩ := kv
    rw [setupContribution_cons]
    by_cases hk : (a == some "install_requires") = true
    · cases v with
      | listE elts =>
        simp only [processKws, hk, if_true] at h
        cases he : appendElts acc elts with
        | ok acc2 =>
          rw [he] at h
          have h1 := appendElts_ok elts acc acc2 he
          have h2 := ih acc2 l h
          simp only [hk, if_true]
          rw [h2, h1]
          simp [strListElems, List.append_assoc]
        | error p =>
          rw [he] at h
          simp at h
      | name id =>
        simp only [processKws, hk, if_true] at h
        have := ih acc l h
        simpa [hk, strListElems] using this
      | attr b at2 =>
        simp only [processKws, hk, if_true] at h
        have := ih acc l h
        simpa [hk, strListElems] using this
      | constStr s =>
        simp only [processKws, hk, if_true] at h
        have := ih acc l h
        simpa [hk, strListElems] using this
      | call f args kws2 =>
        simp only [processKws, hk, if_true] at h
        have := ih acc l h
        simpa [hk, strListElems] using this
    · simp only [processKws, hk, Bool.false_eq_true, if_false] at h
      have := ih acc l h
      simpa [hk] using this

mutual

theorem visitExpr_ok (e : PyExpr) :
    ∀ acc l, visitExpr acc e = Except.ok l → l = acc ++ topSetupDeps e := by
  cases e with
  | name id =>
    intro acc l h
    simp [visitExpr] at h
    simp [topSetupDeps, h]
  | constStr s =>
    intro acc l h
    simp [visitExpr] at h
    simp [topSetupDeps, h]
  | attr b a =>
    intro acc l h
    have hb : visitExpr acc b = Except.ok l := h
    have := visitExpr_ok b acc l hb
    simpa [topSetupDeps] using this
  | listE es =>
    intro acc l h
    have hb : visitList acc es = Except.ok l := h
    have := visitList_ok es acc l hb
    simpa [topSetupDeps] using this
  | call f args kws =>
    intro acc l h
    by_cases hs : calleeIsSetup f = true
    · simp only [visitExpr, hs, if_true] at h
      have := processKws_ok kws acc l h
      simp [topSetupDeps, hs, this]
    · simp only [visitExpr, hs, Bool.false_eq_true, if_false] at h
      simp [topSetupDeps, hs]
      simpa using h.symm

theorem visitList_ok (es : List PyExpr) :
    ∀ acc l, visitList acc es = Except.ok l → l = acc ++ topSetupDepsList es := by
  cases es with
  | nil =>
    intro acc l h
    simp [visitList] at h
    simp [topSetupDepsList, h]
  | cons e rest =>
    intro acc l h
    simp only [visitList] at h
    cases hv : visitExpr acc e with
    | ok acc2 =>
      simp only [hv] at h
      have h1 := visitExpr_ok e acc acc2 hv
      have h2 := visitList_ok rest acc2 l h
      rw [h2, h1]
      simp [topSetupDepsList, List.append_assoc]
    | error p =>
      simp only [hv] at h
      simp at h

end

/-- The module `f(setup(install_requires=["x"]))`: a `setup` call nested
inside another call expression. -/
def c6Module : List PyExpr :=
  [PyExpr.call (PyExpr.name "f")
    [PyExpr.call (PyExpr.name "setup") []
      [(some "install_requires", PyExpr.listE [PyExpr.constStr "x"])]]
    []]

def c6Root : PackageRoot := ⟨none, none, some (Except.ok c6Module)⟩

/-- C6 counterexample: the claim ("every call expression whose callee is
named setup contributes") predicts `["x"]` for
`f(setup(install_requires=["x"]))`, but the visitor, which never
descends into a call's children, finds nothing. -/
theorem claim_C6_counterexample :
    allSetupDepsList c6Module = ["x"]
    ∧ extract_direct_dependencies c6Root = ExtractOut.ok [] []
    ∧ (([] : List String) ≠ ["x"]) := ⟨rfl, rfl, by decide⟩

/-- C6 amended: when the earlier strategies yield nothing and the build
script parses, the visiting pass inspects exactly the call expressions
not enclosed in another call expression (it never descends into a call's
children); each such call whose callee is literally named `setup`
contributes, in depth-first source order, the string values of the
elements of every `install_requires` keyword holding a literal list — so
a successful visit returns precisely the `topSetupDeps` collection. -/
theorem claim_C6_amended (root : PackageRoot) (m : List PyExpr) (logs l : List String)
    (hp : pyprojectYield root = Sum.inl ([], logs))
    (hc : root.setupCfg = none
      ∨ ∃ cfg, root.setupCfg = some (Except.ok cfg) ∧ cfgExtract cfg = [])
    (hs : root.setupPy = some (Except.ok m))
    (hv : visitList [] m = Except.ok l) :
    extract_direct_dependencies root = ExtractOut.ok l logs
    ∧ l = topSetupDepsList m := by
  have h2 : l = topSetupDepsList m := by
    simpa using visitList_ok m [] l hv
  have hsp : setupPyStep root.setupPy [] logs = ExtractOut.ok l logs := by
    simp [setupPyStep, hs, hv]
  have he : extract_direct_dependencies root = ExtractOut.ok l logs := by
    rcases hc with hc | ⟨cfg, hcfg, hce⟩
    · simp [extract_direct_dependencies, hp, setupCfgStep, hc, hsp]
    · simp [extract_direct_dependencies, hp, setupCfgStep, hcfg, hce, hsp]
  exact ⟨he, h2⟩

/-- The spec instance `setup(install_requires=["flask", "jinja2"])`. -/
def c6WitnessModule : List PyExpr :=
  [PyExpr.call (PyExpr.name "setup") []
    [(some "install_requires",
      PyExpr.listE [PyExpr.constStr "flask", PyExpr.constStr "jinja2"])]]

def c6WitnessRoot : PackageRoot := ⟨none, none, some (Except.ok c6WitnessModule)⟩

/-- Witness for the amended C6 at the spec instance. -/
theorem claim_C6_witness :
    extract_direct_dependencies c6WitnessRoot = ExtractOut.ok ["flask", "jinja2"] []
    ∧ (["flask", "jinja2"] : List String) = topSetupDepsList c6WitnessModule :=
  claim_C6_amended c6WitnessRoot c6WitnessModule [] ["flask", "jinja2"]
    rfl (Or.inl rfl) rfl rfl
